import Mathlib

/-!
Shallow embedding of the plugin registry and command dispatch subsystem of
the assistant repository (claude_assistant_plugins.py, claude_assistant_core.py,
run_assistant.py, github_plugin.py, google_cloud_plugin.py), together with
theorems settling the specification claims about it.

Python dictionaries are modelled as insertion-ordered association lists with
insert-or-update semantics (`dictInsert`), matching CPython's ordered dicts.
Python values crossing the dispatch boundary are modelled by `PyValue`;
a raised exception is modelled by the `.error` branch of `Except String _`.
String helpers (`str.strip`, `c in s`, `str.startswith`, slicing) are
modelled over the character list of the string so that every definition
evaluates inside the kernel.
-/

namespace Assistant

/-- Python values as they cross the command-dispatch boundary:
strings, integers, booleans, `None`, lists and (ordered) dicts. -/
inductive PyValue : Type where
  | str (s : String)
  | int (n : Int)
  | bool (b : Bool)
  | none
  | list (xs : List PyValue)
  | dict (entries : List (String × PyValue))

/-- First-match association-list lookup: the value a Python dict holds for a
key, on the ordered-pair-list model (keys are unique in every dict the code
builds, so first match is the dict's value). -/
def listLookup {α : Type} : List (String × α) → String → Option α
  | [], _ => Option.none
  | (k, v) :: rest, key => if k = key then some v else listLookup rest key

/-- The in-place update one `d[k] = v` assignment performs on an existing
entry: the entry whose key is `k` is replaced, all others are kept. -/
def replaceEntry {α : Type} (k : String) (v : α) (e : String × α) :
    String × α :=
  if e.fst = k then (k, v) else e

/-- Python `d[k] = v` on the ordered association-list model: update the
existing entry in place (preserving its position) when the key is present,
append a new entry otherwise. -/
def dictInsert {α : Type} (d : List (String × α)) (k : String) (v : α) :
    List (String × α) :=
  if d.any (fun e => e.fst = k) then
    d.map (replaceEntry k v)
  else
    d ++ [(k, v)]

/-- Reading a key of a dict-shaped result (`r['error']` etc.); `none` when
the result is not a dict or lacks the key. -/
def dictGet (r : PyValue) (k : String) : Option PyValue :=
  match r with
  | .dict es => listLookup es k
  | _ => Option.none

/-- Python `s.strip()`: surrounding whitespace removed (modelled with
`Char.isWhitespace`, which covers the space, tab, CR and LF characters the
code's process output actually carries). -/
def pyStrip (s : String) : String :=
  ⟨((s.data.dropWhile Char.isWhitespace).reverse.dropWhile
      Char.isWhitespace).reverse⟩

/-- Python `c in s` for a single-character needle (`':' in command`). -/
def pyContainsChar (s : String) (c : Char) : Bool :=
  s.data.any (fun a => a == c)

/-- Python `s.startswith(p)`. -/
def pyStartsWith (s p : String) : Bool :=
  p.data.isPrefixOf s.data

/-- Python `s[n:]`. -/
def pyDrop (s : String) (n : Nat) : String :=
  ⟨s.data.drop n⟩

/-- One string occurring inside another (used to state that an error
message carries the timeout bound). -/
def strContainsSub (hay needle : String) : Prop :=
  ∃ pre post, hay = pre ++ needle ++ post

/-! ## The plugin registry (claude_assistant_plugins.py, PluginManager) -/

/-- A plugin command handler: takes the positional arguments the dispatcher
passes through and either returns a value or raises (modelled by `.error`
carrying `str(e)`, the exception's message). -/
def Handler : Type := List PyValue → Except String PyValue

/-- A plugin as the registry sees it (the `Plugin` ABC): `name`, `version`
and `description` properties, the outcome of `initialize(None)` (a returned
Bool, or a raised exception's message) and the outcome of `get_commands()`
(an ordered command map, or a raised exception's message). -/
structure PluginD : Type where
  name : String
  version : String
  description : String
  initResult : Except String Bool
  getCommands : Except String (List (String × Handler))

/-- The state `PluginManager` mutates: `self.plugins` (a dict keyed by
plugin name) and `self.commands` (a dict keyed by full command name). -/
structure PM : Type where
  plugins : List (String × PluginD)
  commands : List (String × Handler)

/-- The manager state before any registration. -/
def pmEmpty : PM := ⟨[], []⟩

/-- The loop in `PluginManager._register_plugin` that does
`self.commands[f"{plugin.name}:{cmd_name}"] = cmd_func` for every item of
the plugin's command map, in order. -/
def registerCommands (d : List (String × Handler)) (pname : String)
    (cmds : List (String × Handler)) : List (String × Handler) :=
  cmds.foldl (fun acc c => dictInsert acc (pname ++ ":" ++ c.fst) c.snd) d

/-- `PluginManager._register_plugin`: if `plugin.initialize(None)` returns
True, store the plugin under its name (a plain dict assignment — no
collision check) and register each command under `"{name}:{cmd}"`; if it
returns False, log and skip; if it (or `get_commands`) raises, the
surrounding `except` logs and keeps whatever was already assigned. -/
def registerPlugin (pm : PM) (p : PluginD) : PM :=
  match p.initResult with
  | .error _ => pm
  | .ok false => pm
  | .ok true =>
    let pm1 : PM := { pm with plugins := dictInsert pm.plugins p.name p }
    match p.getCommands with
    | .error _ => pm1
    | .ok cmds => { pm1 with commands := registerCommands pm1.commands p.name cmds }

/-- A whole load sequence: registering each plugin in order, starting from
the empty manager (as `__init__` does for built-ins then externals). -/
def registerAll (ps : List PluginD) : PM :=
  ps.foldl registerPlugin pmEmpty

/-- The full command names a plugin contributes to the table when it is
registered: `"{name}:{cmd}"` for each command of a plugin whose
`initialize` returned True and whose `get_commands` returned, nothing
otherwise. -/
def pluginContrib (p : PluginD) : List String :=
  match p.initResult with
  | .ok true =>
    match p.getCommands with
    | .ok cmds => cmds.map (fun c => p.name ++ ":" ++ c.fst)
    | .error _ => []
  | _ => []

/-- `PluginManager.execute_command`: look the full command name up in
`self.commands`; absent keys yield `{'error': 'Command not found: <cmd>'}`;
a handler that raises is caught and converted to `{'error': str(e)}`.
The method reads but never mutates the manager state, and calls no handler
on the absent branch. -/
def pmExecuteCommand (pm : PM) (command : String) (args : List PyValue) :
    PyValue :=
  match listLookup pm.commands command with
  | some h =>
    match h args with
    | .ok v => v
    | .error e => .dict [("error", .str e)]
  | Option.none => .dict [("error", .str ("Command not found: " ++ command))]

/-- `PluginManager.list_plugins`: one descriptor dict per stored plugin,
in storage order. -/
def listPlugins (pm : PM) : List PyValue :=
  pm.plugins.map (fun e =>
    .dict [("name", .str e.snd.name), ("version", .str e.snd.version),
           ("description", .str e.snd.description)])

/-- `PluginManager.list_commands`: the command table's keys, in order. -/
def listCommands (pm : PM) : List String :=
  pm.commands.map Prod.fst

/-! ## The enhanced dispatcher (run_assistant.py, EnhancedClaudeAssistant) -/

/-- The success classification of a plugin-command result on the enhanced
path (run_assistant.py line 42):
`not isinstance(result, dict) or 'error' not in result`. -/
def classifySuccess (r : PyValue) : Bool :=
  match r with
  | .dict es => ! es.any (fun e => e.fst == "error")
  | _ => true

/-- Whether a dispatch result is a Python dict (`isinstance(result, dict)`). -/
def isDictValue (r : PyValue) : Bool :=
  match r with
  | .dict _ => true
  | _ => false

mutual

/-- Best-effort model of Python `str()` on a dispatch value (applied by the
enhanced dispatcher only to non-dict results; the exact text of container
reprs is not load-bearing for any claim and quoting is approximated). -/
def pyStr : PyValue → String
  | .str s => s
  | .int n => toString n
  | .bool b => if b then "True" else "False"
  | .none => "None"
  | .list xs => "[" ++ String.intercalate ", " (pyStrList xs) ++ "]"
  | .dict es => "\x7b" ++ String.intercalate ", " (pyStrEntries es) ++ "\x7d"

def pyStrList : List PyValue → List String
  | [] => []
  | x :: xs => pyStr x :: pyStrList xs

def pyStrEntries : List (String × PyValue) → List String
  | [] => []
  | (kk, v) :: es => (kk ++ ": " ++ pyStr v) :: pyStrEntries es

end

/-- `EnhancedClaudeAssistant.execute_command`: when a plugin manager is
present and the command contains `':'`, dispatch through the registry and
wrap the raw result as `{'success': <classification>, 'output': ...,
'command': command}`; otherwise fall back to the parent implementation
(whose result is the opaque `fallback` parameter here). -/
def enhancedExecuteCommand (pmOpt : Option PM) (command : String)
    (args : List PyValue) (fallback : PyValue) : PyValue :=
  match pmOpt with
  | some pm =>
    if pyContainsChar command ':' then
      let r := pmExecuteCommand pm command args
      .dict [("success", .bool (classifySuccess r)),
             ("output", if isDictValue r then r else .str (pyStr r)),
             ("command", .str command)]
    else fallback
  | Option.none => fallback

/-! ## External process invocation
(`subprocess.run` call sites: github_plugin.py `_run_git_command` /
`_run_gh_command`, google_cloud_plugin.py `_run_gcloud_command`,
claude_assistant_core.py `ClaudeAssistant.execute_command`). -/

/-- Outcome of one `subprocess.run(..., capture_output=True, text=True,
timeout=t)` call: normal completion with exit code and captured streams,
a `TimeoutExpired`, or another raised exception (e.g. `FileNotFoundError`)
carrying `str(e)`. -/
inductive ProcOutcome : Type where
  | completed (returncode : Int) (stdout : String) (stderr : String)
  | timedOut
  | raised (msg : String)

/-- `GitHubPlugin._run_git_command`: runs `['git'] + command`; on completion
returns `success = (returncode == 0)` with stripped stdout/stderr; on
`TimeoutExpired` returns `f'Command timed out after {timeout}s'`; any other
exception becomes `str(e)`. -/
def runGitCommand (command : List String) (timeout : Nat)
    (outcome : ProcOutcome) : PyValue :=
  let cmdStr := String.intercalate " " (["git"] ++ command)
  match outcome with
  | .completed rc out err =>
    .dict [("success", .bool (rc == 0)), ("output", .str (pyStrip out)),
           ("error", .str (pyStrip err)), ("command", .str cmdStr)]
  | .timedOut =>
    .dict [("success", .bool false),
           ("error", .str ("Command timed out after " ++ toString timeout ++ "s")),
           ("command", .str cmdStr)]
  | .raised msg =>
    .dict [("success", .bool false), ("error", .str msg),
           ("command", .str cmdStr)]

/-- `GitHubPlugin._run_gh_command`: identical shape over `['gh'] + command`. -/
def runGhCommand (command : List String) (timeout : Nat)
    (outcome : ProcOutcome) : PyValue :=
  let cmdStr := String.intercalate " " (["gh"] ++ command)
  match outcome with
  | .completed rc out err =>
    .dict [("success", .bool (rc == 0)), ("output", .str (pyStrip out)),
           ("error", .str (pyStrip err)), ("command", .str cmdStr)]
  | .timedOut =>
    .dict [("success", .bool false),
           ("error", .str ("Command timed out after " ++ toString timeout ++ "s")),
           ("command", .str cmdStr)]
  | .raised msg =>
    .dict [("success", .bool false), ("error", .str msg),
           ("command", .str cmdStr)]

/-- `GoogleCloudPlugin._run_gcloud_command`: first tries `['gcloud'] + cmd`
and returns only on exit code 0 (a nonzero exit, a timeout or a
`FileNotFoundError` all fall through — `first` is that attempt's outcome);
then looks up a direct Windows SDK path (`gcloudPath`); without one returns
`'Google Cloud SDK not found'`; with one runs `[path] + cmd` (`second`) with
the usual completed / timed-out / raised normalization. -/
def runGcloudCommand (command : List String) (timeout : Nat)
    (first : ProcOutcome) (gcloudPath : Option String)
    (second : ProcOutcome) : PyValue :=
  let stdStr := String.intercalate " " (["gcloud"] ++ command)
  match first with
  | .completed 0 out err =>
    .dict [("success", .bool true), ("output", .str (pyStrip out)),
           ("error", .str (pyStrip err)), ("command", .str stdStr)]
  | _ =>
    match gcloudPath with
    | Option.none =>
      .dict [("success", .bool false),
             ("error", .str "Google Cloud SDK not found"),
             ("command", .str stdStr)]
    | some path =>
      let dirStr := String.intercalate " " ([path] ++ command)
      match second with
      | .completed rc out err =>
        .dict [("success", .bool (rc == 0)), ("output", .str (pyStrip out)),
               ("error", .str (pyStrip err)), ("command", .str dirStr)]
      | .timedOut =>
        .dict [("success", .bool false),
               ("error", .str ("Command timed out after " ++ toString timeout ++ "s")),
               ("command", .str dirStr)]
      | .raised msg =>
        .dict [("success", .bool false), ("error", .str msg),
               ("command", .str dirStr)]

/-- The non-SuperClaude branch of `ClaudeAssistant.execute_command`: runs
`['claude', command] + args` with the configured timeout (default config
value 300); on completion returns `success = (returncode == 0)` with
stdout/stderr passed through verbatim (no strip); on `TimeoutExpired` the
error is the fixed string `'Command timed out'` (the bound does not appear
in it); any other exception becomes `str(e)`. -/
def coreExecuteStandard (timeout : Nat) (command : String)
    (args : List String) (outcome : ProcOutcome) : PyValue :=
  let cmdStr := String.intercalate " " (["claude", command] ++ args)
  match outcome with
  | .completed rc out err =>
    .dict [("success", .bool (rc == 0)), ("output", .str out),
           ("error", .str err), ("command", .str cmdStr)]
  | .timedOut =>
    .dict [("success", .bool false), ("error", .str "Command timed out"),
           ("command", .str cmdStr)]
  | .raised msg =>
    .dict [("success", .bool false), ("error", .str msg),
           ("command", .str cmdStr)]

/-- The fixed mapping `_execute_superclaude_command` applies to a
`/sc:`-prefixed command name. -/
def superclaudeCommands : List (String × String) :=
  [("build", "/build"), ("implement", "/implement"), ("analyze", "/analyze"),
   ("improve", "/improve"), ("test", "/test"), ("document", "/document")]

/-- `ClaudeAssistant.execute_command`: a `/sc:`-prefixed command is mapped
through `superclaudeCommands` (unknown names yield
`{'success': False, 'error': 'Unknown SuperClaude command: <name>'}`) and
then runs like a standard command; anything else runs directly. `outcome`
is the result of the single `subprocess.run` the call performs, if any. -/
def coreExecuteCommand (timeout : Nat) (command : String)
    (args : List String) (outcome : ProcOutcome) : PyValue :=
  if pyStartsWith command "/sc:" then
    let cmdName := pyDrop command 4
    match listLookup superclaudeCommands cmdName with
    | some actual => coreExecuteStandard timeout actual args outcome
    | Option.none =>
      .dict [("success", .bool false),
             ("error", .str ("Unknown SuperClaude command: " ++ cmdName))]
  else coreExecuteStandard timeout command args outcome

/-! ## External plugin discovery
(`PluginManager._load_external_plugins` / `_load_plugin_from_file`). -/

/-- One `Plugin` subclass found in a scanned file: instantiating it
(`obj()`) either yields a plugin instance or raises. -/
inductive ClassLoad : Type where
  | ok (p : PluginD)
  | raises (msg : String)

/-- One `*.py` unit in the plugin directory: loading the module either
raises (malformed source, missing dependency — nothing of it runs) or
yields the `Plugin` subclasses found in it, in scan order. -/
structure UnitFile : Type where
  loadResult : Except String (List ClassLoad)

/-- The class loop of `_load_plugin_from_file`: register each instantiated
class in order; the first constructor that raises aborts the rest of this
file's loop (the exception propagates to the caller), keeping every
registration already performed. -/
def loadClasses (pm : PM) : List ClassLoad → PM
  | [] => pm
  | ClassLoad.ok p :: rest => loadClasses (registerPlugin pm p) rest
  | ClassLoad.raises _ :: _ => pm

/-- `_load_external_plugins`: each discovered file is loaded inside its own
`try/except`; a failure is logged and the loop continues with the next
file. -/
def loadExternalPlugins (pm : PM) : List UnitFile → PM
  | [] => pm
  | u :: rest =>
    match u.loadResult with
    | .error _ => loadExternalPlugins pm rest
    | .ok cs => loadExternalPlugins (loadClasses pm cs) rest

/-! ## The task ledger (claude_assistant_core.py, Task / update_task_status). -/

/-- `TaskStatus` enum. -/
inductive TaskStatus : Type where
  | pending
  | in_progress
  | completed
  | failed
deriving DecidableEq

/-- `Priority` enum. -/
inductive Priority : Type where
  | low
  | medium
  | high
  | critical
deriving DecidableEq

/-- The `Task` dataclass. -/
structure Task : Type where
  id : String
  description : String
  status : TaskStatus
  priority : Priority
  context : List (String × PyValue)
  created_at : String
  updated_at : String

/-- The per-entry effect of `update_task_status` on the task map: the entry
for `taskId` gets the new status and `updated_at := now`, every other entry
is untouched. -/
def updateTaskEntry (taskId : String) (status : TaskStatus) (now : String)
    (e : String × Task) : String × Task :=
  if e.fst = taskId then
    (e.fst, { e.snd with status := status, updated_at := now })
  else e

/-- `ClaudeAssistant.update_task_status`: when `task_id` is a key of
`self.tasks`, mutate that task's `status` and stamp `updated_at` with the
current time (`now` here), returning True; otherwise return False and touch
nothing. -/
def updateTaskStatus (tasks : List (String × Task)) (taskId : String)
    (status : TaskStatus) (now : String) : Bool × List (String × Task) :=
  if tasks.any (fun e => e.fst = taskId) then
    (true, tasks.map (updateTaskEntry taskId status now))
  else (false, tasks)

/-! ## Concrete fixtures used by counterexamples and witnesses. -/

/-- A handler that returns a fixed string (used to tell two same-named
plugins' handlers apart observationally). -/
def echoHandler (s : String) : Handler := fun _ => .ok (.str s)

/-- A handler that raises. -/
def boomHandler : Handler := fun _ => .error "boom"

/-- A handler returning a dict that carries both `'success': True` and an
`'error'` key. -/
def trickyHandler : Handler :=
  fun _ => .ok (.dict [("success", .bool true), ("error", .str "x")])

/-- First of two plugins sharing the name `"p"`. -/
def pluginOne : PluginD :=
  ⟨"p", "1.0.0", "first", .ok true, .ok [("c", echoHandler "one")]⟩

/-- Second of two plugins sharing the name `"p"`. -/
def pluginTwo : PluginD :=
  ⟨"p", "2.0.0", "second", .ok true, .ok [("c", echoHandler "two")]⟩

/-- A plugin whose only handler raises. -/
def pluginBoom : PluginD :=
  ⟨"x", "1.0.0", "raising handler", .ok true, .ok [("go", boomHandler)]⟩

/-- A plugin whose handler returns the tricky dict. -/
def pluginTricky : PluginD :=
  ⟨"t", "1.0.0", "tricky result", .ok true, .ok [("go", trickyHandler)]⟩

/-- A well-formed plugin found first in a failing discovery unit. -/
def pluginAlpha : PluginD :=
  ⟨"alpha", "1.0.0", "alpha", .ok true, .ok [("a", echoHandler "alpha-a")]⟩

/-- A well-formed plugin in a healthy discovery unit. -/
def pluginBeta : PluginD :=
  ⟨"beta", "1.0.0", "beta", .ok true, .ok [("b", echoHandler "beta-b")]⟩

/-- Two discovery units: the first registers `pluginAlpha` and then raises
while instantiating its second class; the second holds `pluginBeta`. -/
def discoveryUnits : List UnitFile :=
  [⟨.ok [ClassLoad.ok pluginAlpha, ClassLoad.raises "boom"]⟩,
   ⟨.ok [ClassLoad.ok pluginBeta]⟩]

/-! ## Association-list lemmas -/

theorem listLookup_append_left {α : Type} (d₁ d₂ : List (String × α)) (k : String)
    (h : listLookup d₁ k = Option.none) :
    listLookup (d₁ ++ d₂) k = listLookup d₂ k := by
  induction d₁ with
  | nil => rfl
  | cons e rest ih =>
    obtain ⟨ek, ev⟩ := e
    by_cases hk : ek = k
    · simp [listLookup, hk] at h
    · simp only [listLookup, List.cons_append, hk, if_false] at h ⊢
      exact ih h

/-- Appending a single entry with a different key does not change a lookup. -/
theorem listLookup_append_single_ne {α : Type} (d : List (String × α))
    (k k' : String) (v : α) (h : k' ≠ k) :
    listLookup (d ++ [(k, v)]) k' = listLookup d k' := by
  induction d with
  | nil =>
    have h1 : k ≠ k' := fun hc => h hc.symm
    simp [listLookup, h1]
  | cons e rest ih =>
    obtain ⟨ek, ev⟩ := e
    by_cases he : ek = k'
    · simp [listLookup, he]
    · simp [listLookup, he, ih]

theorem listLookup_eq_none_of_not_mem {α : Type} (d : List (String × α))
    (k : String) (h : k ∉ d.map Prod.fst) : listLookup d k = Option.none := by
  induction d with
  | nil => rfl
  | cons e rest ih =>
    obtain ⟨ek, ev⟩ := e
    simp only [List.map_cons, List.mem_cons] at h
    push_neg at h
    have hk : ek ≠ k := fun hc => h.1 hc.symm
    simp only [listLookup, hk, if_false]
    exact ih h.2

theorem dictInsert_of_not_mem {α : Type} (d : List (String × α)) (k : String)
    (v : α) (h : k ∉ d.map Prod.fst) : dictInsert d k v = d ++ [(k, v)] := by
  unfold dictInsert
  have hany : d.any (fun e => e.fst = k) = false := by
    simp only [List.any_eq_false, decide_eq_true_eq]
    intro e he hc
    exact h (List.mem_map.mpr ⟨e, he, hc⟩)
  simp [hany]

theorem replaceEntry_same {α : Type} (k : String) (v : α) (ek : String) (ev : α)
    (hk : ek = k) : replaceEntry k v (ek, ev) = (k, v) := by
  simp [replaceEntry, hk]

theorem replaceEntry_other {α : Type} (k : String) (v : α) (ek : String) (ev : α)
    (hk : ¬ ek = k) : replaceEntry k v (ek, ev) = (ek, ev) := by
  simp [replaceEntry, hk]

/-- Lookup of a different key is unchanged by the in-place replacement pass
that `dictInsert` performs when the key is already present. -/
theorem listLookup_map_replace {α : Type} (d : List (String × α))
    (k k' : String) (v : α) (h : k' ≠ k) :
    listLookup (d.map (replaceEntry k v)) k' = listLookup d k' := by
  induction d with
  | nil => rfl
  | cons e rest ih =>
    obtain ⟨ek, ev⟩ := e
    simp only [List.map_cons]
    by_cases hk : ek = k
    · rw [replaceEntry_same k v ek ev hk]
      have h1 : ¬ (k = k') := fun hc => h hc.symm
      have h2 : ¬ (ek = k') := hk ▸ h1
      simp [listLookup, h1, h2, ih]
    · rw [replaceEntry_other k v ek ev hk]
      by_cases he' : ek = k'
      · simp [listLookup, he']
      · simp [listLookup, he', ih]

theorem listLookup_dictInsert_self {α : Type} (d : List (String × α))
    (k : String) (v : α) : listLookup (dictInsert d k v) k = some v := by
  unfold dictInsert
  by_cases hany : d.any (fun e => e.fst = k)
  · rw [if_pos hany]
    induction d with
    | nil => simp at hany
    | cons e rest ih =>
      obtain ⟨ek, ev⟩ := e
      simp only [List.map_cons]
      by_cases he : ek = k
      · rw [replaceEntry_same k v ek ev he]
        simp [listLookup]
      · simp only [List.any_cons, he, Bool.or_eq_true, decide_eq_true_eq,
          false_or] at hany
        rw [replaceEntry_other k v ek ev he]
        simp [listLookup, he, ih hany]
  · rw [if_neg hany]
    have hnone : listLookup d k = Option.none := by
      apply listLookup_eq_none_of_not_mem
      intro hmem
      obtain ⟨e, he, hek⟩ := List.mem_map.mp hmem
      simp only [List.any_eq_true] at hany
      exact hany ⟨e, he, by simp [hek]⟩
    rw [listLookup_append_left _ _ _ hnone]
    simp [listLookup]

theorem listLookup_dictInsert_ne {α : Type} (d : List (String × α))
    (k k' : String) (v : α) (h : k' ≠ k) :
    listLookup (dictInsert d k v) k' = listLookup d k' := by
  unfold dictInsert
  by_cases hany : d.any (fun e => e.fst = k)
  · rw [if_pos hany]
    exact listLookup_map_replace d k k' v h
  · rw [if_neg hany]
    exact listLookup_append_single_ne d k k' v h

/-- Keys after a fresh-key insert: the new key is appended. -/
theorem dictInsert_keys_of_not_mem {α : Type} (d : List (String × α))
    (k : String) (v : α) (h : k ∉ d.map Prod.fst) :
    (dictInsert d k v).map Prod.fst = d.map Prod.fst ++ [k] := by
  rw [dictInsert_of_not_mem d k v h]
  simp

theorem any_key_eq_false_of_lookup_none {α : Type} (d : List (String × α))
    (k : String) (h : listLookup d k = Option.none) :
    d.any (fun e => e.fst = k) = false := by
  induction d with
  | nil => rfl
  | cons e rest ih =>
    obtain ⟨ek, ev⟩ := e
    by_cases hk : ek = k
    · simp [listLookup, hk] at h
    · simp only [listLookup, hk, if_false] at h
      simp [hk, ih h]

theorem any_key_eq_true_of_lookup_some {α : Type} (d : List (String × α))
    (k : String) (v : α) (h : listLookup d k = some v) :
    d.any (fun e => e.fst = k) = true := by
  induction d with
  | nil => simp [listLookup] at h
  | cons e rest ih =>
    obtain ⟨ek, ev⟩ := e
    by_cases hk : ek = k
    · simp [hk]
    · simp only [listLookup, hk, if_false] at h
      simp [ih h]

/-- The `'error' in result` test agrees with lookup on the entry list. -/
theorem any_beq_key_true_iff {α : Type} (d : List (String × α)) (k : String) :
    d.any (fun e => e.fst == k) = true ↔ listLookup d k ≠ Option.none := by
  induction d with
  | nil => simp [listLookup]
  | cons e rest ih =>
    obtain ⟨ek, ev⟩ := e
    by_cases hk : ek = k
    · simp [listLookup, hk]
    · simp [listLookup, hk, ih]

/-! ## C3 — dispatch of an absent command -/

/-- C3: for every full command name absent from the command table,
`PluginManager.execute_command` returns the dict
`{'error': 'Command not found: <fullName>'}` — a result the system's own
success classification (run_assistant.py) reports as failed.  On this
branch the source consults no handler (so no process can be spawned) and,
as the definition shows, never mutates the registry state. -/
theorem dispatch_absent_command_not_found (pm : PM) (cmd : String)
    (args : List PyValue)
    (habsent : listLookup pm.commands cmd = Option.none) :
    pmExecuteCommand pm cmd args =
      .dict [("error", .str ("Command not found: " ++ cmd))] ∧
    classifySuccess (pmExecuteCommand pm cmd args) = false := by
  constructor
  · simp [pmExecuteCommand, habsent]
  · simp [pmExecuteCommand, habsent, classifySuccess]

/-- Witness for C3 at the spec's own example `dispatch("missing:cmd", [])`
on an empty registry. -/
theorem dispatch_absent_command_not_found_witness :
    pmExecuteCommand pmEmpty "missing:cmd" [] =
      .dict [("error", .str ("Command not found: " ++ "missing:cmd"))] ∧
    classifySuccess (pmExecuteCommand pmEmpty "missing:cmd" []) = false :=
  dispatch_absent_command_not_found pmEmpty "missing:cmd" [] rfl

/-! ## C7 — a raising handler is contained -/

/-- C7: when the bound handler of a registered command raises,
`PluginManager.execute_command` catches the exception and returns
`{'error': str(e)}`; the classification of that result is failure.  The
embedding's dispatcher is a total function into `PyValue`, mirroring that
the `except` block lets no handler fault escape to the caller. -/
theorem dispatch_handler_fault_contained (pm : PM) (cmd : String)
    (args : List PyValue) (hnd : Handler) (e : String)
    (hfound : listLookup pm.commands cmd = some hnd)
    (hraise : hnd args = .error e) :
    pmExecuteCommand pm cmd args = .dict [("error", .str e)] ∧
    classifySuccess (pmExecuteCommand pm cmd args) = false := by
  constructor
  · simp [pmExecuteCommand, hfound, hraise]
  · simp [pmExecuteCommand, hfound, hraise, classifySuccess]

/-- Witness for C7: a registered plugin whose handler raises `"boom"`. -/
theorem dispatch_handler_fault_contained_witness :
    pmExecuteCommand (registerPlugin pmEmpty pluginBoom) "x:go" [] =
      .dict [("error", .str "boom")] ∧
    classifySuccess
      (pmExecuteCommand (registerPlugin pmEmpty pluginBoom) "x:go" []) = false :=
  dispatch_handler_fault_contained (registerPlugin pmEmpty pluginBoom) "x:go"
    [] boomHandler "boom" rfl rfl

/-! ## C9 — the enhanced executor's success classification -/

/-- C9: for a command containing `':'` whose handler returns a value `v`,
the enhanced executor reports `success = classifySuccess v`, i.e. failure
exactly when `v` is a dict containing the key `'error'` — independent of
any `'success'` field inside `v`; every non-dict value and every dict
without `'error'` is reported successful. -/
theorem enhanced_failure_iff_error_key (pm : PM) (cmd : String)
    (args : List PyValue) (hnd : Handler) (v : PyValue) (fb : PyValue)
    (hcolon : pyContainsChar cmd ':' = true)
    (hfound : listLookup pm.commands cmd = some hnd)
    (hret : hnd args = .ok v) :
    dictGet (enhancedExecuteCommand (some pm) cmd args fb) "success" =
      some (.bool (classifySuccess v)) ∧
    (classifySuccess v = false ↔
      ∃ es, v = .dict es ∧ listLookup es "error" ≠ Option.none) := by
  constructor
  · simp [enhancedExecuteCommand, hcolon, pmExecuteCommand, hfound, hret,
      dictGet, listLookup]
  · cases v with
    | dict es =>
      constructor
      · intro hfalse
        refine ⟨es, rfl, ?_⟩
        rw [← any_beq_key_true_iff]
        simpa [classifySuccess] using hfalse
      · rintro ⟨es', heq, hne⟩
        have hes : es = es' := by injection heq
        subst hes
        simp [classifySuccess, (any_beq_key_true_iff es "error").mpr hne]
    | str s => simp [classifySuccess]
    | int n => simp [classifySuccess]
    | bool b => simp [classifySuccess]
    | none => simp [classifySuccess]
    | list xs => simp [classifySuccess]

/-- Witness for C9: a handler returning
`{'success': True, 'error': 'x'}` is reported as failed. -/
theorem enhanced_failure_iff_error_key_witness :
    dictGet
      (enhancedExecuteCommand (some (registerPlugin pmEmpty pluginTricky))
        "t:go" [] PyValue.none) "success" = some (.bool false) := by
  have h := enhanced_failure_iff_error_key (registerPlugin pmEmpty pluginTricky)
    "t:go" [] trickyHandler
    (.dict [("success", .bool true), ("error", .str "x")]) PyValue.none
    rfl rfl rfl
  simpa [classifySuccess] using h.1

/-! ## C10 — update_task_status -/

theorem updateTaskEntry_fst (taskId : String) (status : TaskStatus)
    (now : String) (e : String × Task) :
    (updateTaskEntry taskId status now e).fst = e.fst := by
  unfold updateTaskEntry
  split
  · rfl
  · rfl

theorem listLookup_map_updateTask_self (tasks : List (String × Task))
    (taskId : String) (status : TaskStatus) (now : String) :
    listLookup (tasks.map (updateTaskEntry taskId status now)) taskId =
      (listLookup tasks taskId).map
        (fun tk => { tk with status := status, updated_at := now }) := by
  induction tasks with
  | nil => rfl
  | cons e rest ih =>
    obtain ⟨ek, ev⟩ := e
    simp only [List.map_cons]
    by_cases hk : ek = taskId
    · have : updateTaskEntry taskId status now (ek, ev) =
          (ek, { ev with status := status, updated_at := now }) := by
        simp [updateTaskEntry, hk]
      rw [this]
      simp [listLookup, hk]
    · have : updateTaskEntry taskId status now (ek, ev) = (ek, ev) := by
        simp [updateTaskEntry, hk]
      rw [this]
      simp [listLookup, hk, ih]

theorem listLookup_map_updateTask_ne (tasks : List (String × Task))
    (taskId : String) (status : TaskStatus) (now : String) (other : String)
    (h : other ≠ taskId) :
    listLookup (tasks.map (updateTaskEntry taskId status now)) other =
      listLookup tasks other := by
  induction tasks with
  | nil => rfl
  | cons e rest ih =>
    obtain ⟨ek, ev⟩ := e
    simp only [List.map_cons]
    by_cases hk : ek = taskId
    · have hrw : updateTaskEntry taskId status now (ek, ev) =
          (ek, { ev with status := status, updated_at := now }) := by
        simp [updateTaskEntry, hk]
      have hne : ¬ (ek = other) := fun hc => h (hc.symm.trans hk)
      rw [hrw]
      simp [listLookup, hne, ih]
    · have hrw : updateTaskEntry taskId status now (ek, ev) = (ek, ev) := by
        simp [updateTaskEntry, hk]
      rw [hrw]
      by_cases he : ek = other
      · simp [listLookup, he]
      · simp [listLookup, he, ih]

theorem map_updateTask_keys (tasks : List (String × Task)) (taskId : String)
    (status : TaskStatus) (now : String) :
    (tasks.map (updateTaskEntry taskId status now)).map Prod.fst =
      tasks.map Prod.fst := by
  rw [List.map_map]
  exact List.map_congr_left (fun e _ => updateTaskEntry_fst taskId status now e)

/-- C10: `update_task_status` on an absent task id returns False and leaves
the task map unchanged; on a present id it returns True, sets exactly that
task's status and refreshes its `updated_at` to the current time, while
every other task (and the key set itself) is untouched. -/
theorem update_task_status_spec (tasks : List (String × Task))
    (taskId : String) (status : TaskStatus) (now : String) :
    (listLookup tasks taskId = Option.none →
      updateTaskStatus tasks taskId status now = (false, tasks)) ∧
    (∀ tk, listLookup tasks taskId = some tk →
      (updateTaskStatus tasks taskId status now).fst = true ∧
      listLookup (updateTaskStatus tasks taskId status now).snd taskId =
        some { tk with status := status, updated_at := now } ∧
      (∀ otherId, otherId ≠ taskId →
        listLookup (updateTaskStatus tasks taskId status now).snd otherId =
          listLookup tasks otherId) ∧
      (updateTaskStatus tasks taskId status now).snd.map Prod.fst =
        tasks.map Prod.fst) := by
  constructor
  · intro habsent
    unfold updateTaskStatus
    rw [if_neg]
    intro hany
    rw [any_key_eq_false_of_lookup_none tasks taskId habsent] at hany
    exact absurd hany (by simp)
  · intro tk hfound
    have hany := any_key_eq_true_of_lookup_some tasks taskId tk hfound
    unfold updateTaskStatus
    rw [if_pos hany]
    refine ⟨rfl, ?_, ?_, ?_⟩
    · rw [listLookup_map_updateTask_self, hfound]
      rfl
    · intro otherId hne
      exact listLookup_map_updateTask_ne tasks taskId status now otherId hne
    · exact map_updateTask_keys tasks taskId status now

/-- A concrete pending task used by the C10 witness. -/
def taskA : Task :=
  ⟨"a", "demo", TaskStatus.pending, Priority.medium, [], "t0", "t0"⟩

/-- Witness for C10: one-task map, one absent id and one present id. -/
theorem update_task_status_spec_witness :
    updateTaskStatus [("a", taskA)] "b" TaskStatus.completed "t1" =
      (false, [("a", taskA)]) ∧
    (updateTaskStatus [("a", taskA)] "a" TaskStatus.completed "t1").fst = true ∧
    listLookup (updateTaskStatus [("a", taskA)] "a" TaskStatus.completed "t1").snd
        "a" =
      some { taskA with status := TaskStatus.completed, updated_at := "t1" } := by
  have h1 := (update_task_status_spec [("a", taskA)] "b"
    TaskStatus.completed "t1").1 rfl
  have h2 := (update_task_status_spec [("a", taskA)] "a"
    TaskStatus.completed "t1").2 taskA rfl
  exact ⟨h1, h2.1, h2.2.1⟩

/-! ## C4 — success/error exclusivity at the result boundary -/

/-- C4 counterexample: a git invocation that exits 0 while writing to
stderr produces `success = True` together with the non-null error string
`'warn'` (the trimmed stderr), and the core path behaves the same — the
claimed exclusivity (`success = true` implies a null error) fails. -/
theorem success_result_carries_stderr_error :
    dictGet (runGitCommand ["status"] 30 (.completed 0 "ok" "warn"))
        "success" = some (.bool true) ∧
    dictGet (runGitCommand ["status"] 30 (.completed 0 "ok" "warn"))
        "error" = some (.str "warn") ∧
    PyValue.str "warn" ≠ PyValue.none ∧
    dictGet (coreExecuteCommand 300 "st" [] (.completed 0 "ok" "warn"))
        "error" = some (.str "warn") := by
  refine ⟨rfl, rfl, ?_, rfl⟩
  simp

/-- C4 as amended: on both cited invocation paths every produced result —
failure or success — carries a string (hence non-null) `error` field: a
message on the timeout/exception branches, the process's stderr (trimmed on
the plugin path, raw on the core path) on the completion branch.  The
`success = false → error non-null` half of the claim holds; the
`success = true → error null` half does not, since the stderr string is
stored even on success. -/
theorem result_error_field_always_string (gitCmd : List String) (t : Nat)
    (o : ProcOutcome) (ct : Nat) (cmd : String) (args : List String) :
    (∃ s, dictGet (runGitCommand gitCmd t o) "error" = some (.str s)) ∧
    (∃ s, dictGet (coreExecuteStandard ct cmd args o) "error" =
      some (.str s)) := by
  cases o with
  | completed rc out err => exact ⟨⟨pyStrip err, rfl⟩, ⟨err, rfl⟩⟩
  | timedOut => exact ⟨⟨"Command timed out after " ++ toString t ++ "s", rfl⟩,
      ⟨"Command timed out", rfl⟩⟩
  | raised m => exact ⟨⟨m, rfl⟩, ⟨m, rfl⟩⟩

/-! ## C5 — trimming of captured streams -/

/-- C5 counterexample: the core path
(`ClaudeAssistant.execute_command`) returns stdout/stderr verbatim — with
their surrounding whitespace — so "stdout/stderr are always trimmed" fails
on that invocation path. -/
theorem core_streams_not_trimmed :
    dictGet (coreExecuteCommand 300 "status" []
        (.completed 0 " out \n" " err ")) "output" = some (.str " out \n") ∧
    pyStrip " out \n" ≠ " out \n" ∧
    dictGet (coreExecuteCommand 300 "status" []
        (.completed 0 " out \n" " err ")) "error" = some (.str " err ") ∧
    pyStrip " err " ≠ " err " := by
  exact ⟨rfl, by decide, rfl, by decide⟩

/-- C5 as amended: the plugin invocation paths (git, gh, and both gcloud
attempts) strip surrounding whitespace from the captured stdout and stderr
of every completed process, while the core path passes both streams through
verbatim, untrimmed. -/
theorem stream_trimming_by_path (gitCmd ghCmd gcCmd : List String) (t : Nat)
    (rc : Int) (out err : String) (path : String) (gp : Option String)
    (second : ProcOutcome) (ct : Nat) (cmd : String) (args : List String) :
    dictGet (runGitCommand gitCmd t (.completed rc out err)) "output" =
      some (.str (pyStrip out)) ∧
    dictGet (runGitCommand gitCmd t (.completed rc out err)) "error" =
      some (.str (pyStrip err)) ∧
    dictGet (runGhCommand ghCmd t (.completed rc out err)) "output" =
      some (.str (pyStrip out)) ∧
    dictGet (runGhCommand ghCmd t (.completed rc out err)) "error" =
      some (.str (pyStrip err)) ∧
    dictGet (runGcloudCommand gcCmd t (.completed 0 out err) gp second)
        "output" = some (.str (pyStrip out)) ∧
    dictGet (runGcloudCommand gcCmd t (.completed 0 out err) gp second)
        "error" = some (.str (pyStrip err)) ∧
    dictGet (runGcloudCommand gcCmd t ProcOutcome.timedOut (some path)
        (.completed rc out err)) "output" = some (.str (pyStrip out)) ∧
    dictGet (runGcloudCommand gcCmd t ProcOutcome.timedOut (some path)
        (.completed rc out err)) "error" = some (.str (pyStrip err)) ∧
    dictGet (coreExecuteStandard ct cmd args (.completed rc out err))
        "output" = some (.str out) ∧
    dictGet (coreExecuteStandard ct cmd args (.completed rc out err))
        "error" = some (.str err) :=
  ⟨rfl, rfl, rfl, rfl, rfl, rfl, rfl, rfl, rfl, rfl⟩

/-! ## C6 — the timeout error message -/

/-- C6 counterexample: with the default configured timeout of 300 seconds,
a timed-out core invocation reports `success = False` with the fixed error
string `'Command timed out'`, which does not contain the bound `300` — so
"the message includes the elapsed bound, for every invocation path" fails
on the core path. -/
theorem core_timeout_message_lacks_bound :
    dictGet (coreExecuteCommand 300 "status" [] ProcOutcome.timedOut)
        "success" = some (.bool false) ∧
    dictGet (coreExecuteCommand 300 "status" [] ProcOutcome.timedOut)
        "error" = some (.str "Command timed out") ∧
    ¬ strContainsSub "Command timed out" (toString (300 : Nat)) := by
  refine ⟨rfl, rfl, ?_⟩
  rintro ⟨pre, post, heq⟩
  have hd := congrArg String.data heq
  rw [String.data_append, String.data_append] at hd
  have h3 : ('3' : Char) ∈ "Command timed out".data := by
    rw [hd]
    refine List.mem_append.mpr (Or.inl (List.mem_append.mpr (Or.inr ?_)))
    decide
  exact absurd h3 (by decide)

/-- C6 as amended: a timeout on the git/gh paths and on the gcloud
direct-path attempt yields `success = False` with error
`'Command timed out after {t}s'`, which contains the configured bound; a
timeout of the gcloud standard attempt does not report Timeout but falls
through to the direct-path lookup (yielding `'Google Cloud SDK not found'`
when no SDK path exists); the core path yields `success = False` with the
fixed message `'Command timed out'`, without the bound. -/
theorem timeout_error_by_path (gitCmd ghCmd gcCmd : List String) (t : Nat)
    (path : String) (second : ProcOutcome) (ct : Nat) (cmd : String)
    (args : List String) :
    dictGet (runGitCommand gitCmd t ProcOutcome.timedOut) "success" =
      some (.bool false) ∧
    dictGet (runGitCommand gitCmd t ProcOutcome.timedOut) "error" =
      some (.str ("Command timed out after " ++ toString t ++ "s")) ∧
    strContainsSub ("Command timed out after " ++ toString t ++ "s")
      (toString t) ∧
    dictGet (runGhCommand ghCmd t ProcOutcome.timedOut) "error" =
      some (.str ("Command timed out after " ++ toString t ++ "s")) ∧
    dictGet (runGcloudCommand gcCmd t ProcOutcome.timedOut (some path)
        ProcOutcome.timedOut) "error" =
      some (.str ("Command timed out after " ++ toString t ++ "s")) ∧
    dictGet (runGcloudCommand gcCmd t ProcOutcome.timedOut Option.none
        second) "error" = some (.str "Google Cloud SDK not found") ∧
    dictGet (coreExecuteStandard ct cmd args ProcOutcome.timedOut)
        "success" = some (.bool false) ∧
    dictGet (coreExecuteStandard ct cmd args ProcOutcome.timedOut) "error" =
      some (.str "Command timed out") :=
  ⟨rfl, rfl, ⟨"Command timed out after ", "s", rfl⟩, rfl, rfl, rfl, rfl, rfl⟩

/-! ## C8 — discovery failure isolation -/

/-- C8 counterexample: a unit whose second class raises during
instantiation does not disappear from the registry — the class registered
before the raise stays in `listPlugins()` and in the command table, so
"the failed unit appears neither in listPlugins() nor in the command
table" fails (while the healthy later unit does still register). -/
theorem discovery_partial_unit_persists :
    ((loadExternalPlugins pmEmpty discoveryUnits).plugins.map Prod.fst) =
      ["alpha", "beta"] ∧
    (["alpha", "beta"] : List String) ≠ ["beta"] ∧
    listCommands (loadExternalPlugins pmEmpty discoveryUnits) =
      ["alpha:a", "beta:b"] := by
  exact ⟨rfl, by decide, rfl⟩

/-- C8 as amended: a unit file that raises is logged and isolated — a unit
failing at module load contributes nothing, and a unit whose class loop
raises keeps exactly the classes registered before the raising constructor
and skips the rest of that unit; in both cases discovery of every
subsequent unit file proceeds from that state, so all other discovered
units still register. -/
theorem discovery_failure_isolated (pm : PM) (e : String)
    (rest : List UnitFile) (ps : List PluginD) (msg : String)
    (junk : List ClassLoad) :
    loadExternalPlugins pm (⟨.error e⟩ :: rest) =
      loadExternalPlugins pm rest ∧
    loadExternalPlugins pm
        (⟨.ok (ps.map ClassLoad.ok ++ ClassLoad.raises msg :: junk)⟩ :: rest) =
      loadExternalPlugins (ps.foldl registerPlugin pm) rest := by
  constructor
  · rfl
  · have hgo : ∀ (qs : List PluginD) (pmx : PM),
        loadClasses pmx (qs.map ClassLoad.ok ++ ClassLoad.raises msg :: junk) =
          qs.foldl registerPlugin pmx := by
      intro qs
      induction qs with
      | nil => intro pmx; rfl
      | cons q qrest ih =>
        intro pmx
        simpa [loadClasses] using ih (registerPlugin pmx q)
    have h1 : loadExternalPlugins pm
        (⟨.ok (ps.map ClassLoad.ok ++ ClassLoad.raises msg :: junk)⟩ :: rest) =
        loadExternalPlugins
          (loadClasses pm (ps.map ClassLoad.ok ++ ClassLoad.raises msg :: junk))
          rest := rfl
    rw [h1, hgo ps pm]

/-! ## C1 — duplicate plugin names -/

theorem map_replace_id {α : Type} (d : List (String × α)) (k : String) (v : α)
    (h : ∀ e ∈ d, e.fst ≠ k) : d.map (replaceEntry k v) = d := by
  induction d with
  | nil => rfl
  | cons e rest ih =>
    obtain ⟨ek, ev⟩ := e
    have hek : ek ≠ k := by simpa using h (ek, ev) (by simp)
    simp only [List.map_cons]
    rw [replaceEntry_other k v ek ev hek,
      ih (fun e2 he2 => h e2 (List.mem_cons_of_mem _ he2))]

theorem filter_key_eq_nil {α : Type} (d : List (String × α)) (k : String)
    (h : ∀ e ∈ d, e.fst ≠ k) : d.filter (fun e => e.fst == k) = [] := by
  rw [List.filter_eq_nil_iff]
  intro e he
  simpa using h e he

theorem filter_map_replace_key {α : Type} (d : List (String × α))
    (k : String) (v : α) (hkeys : (d.map Prod.fst).Nodup)
    (hany : d.any (fun e => e.fst = k) = true) :
    (d.map (replaceEntry k v)).filter (fun e => e.fst == k) = [(k, v)] := by
  induction d with
  | nil => simp at hany
  | cons e rest ih =>
    obtain ⟨ek, ev⟩ := e
    simp only [List.map_cons] at hkeys ⊢
    have hhead : ek ∉ rest.map Prod.fst := (List.nodup_cons.mp hkeys).1
    have htail : (rest.map Prod.fst).Nodup := (List.nodup_cons.mp hkeys).2
    by_cases he : ek = k
    · rw [replaceEntry_same k v ek ev he]
      have hrest : ∀ e2 ∈ rest, e2.fst ≠ k := by
        intro e2 hmem hc
        apply hhead
        rw [he, ← hc]
        exact List.mem_map.mpr ⟨e2, hmem, rfl⟩
      rw [map_replace_id rest k v hrest]
      simp [List.filter_cons, filter_key_eq_nil rest k hrest]
    · rw [replaceEntry_other k v ek ev he]
      have hany' : rest.any (fun e => e.fst = k) = true := by
        simp only [List.any_cons] at hany
        simpa [he] using hany
      simp [List.filter_cons, he, ih htail hany']

/-- The registry dict holds exactly the last-assigned plugin under a key:
after `d[k] = v`, filtering the entries on key `k` yields `[(k, v)]`. -/
theorem dictInsert_filter_key {α : Type} (d : List (String × α)) (k : String)
    (v : α) (hkeys : (d.map Prod.fst).Nodup) :
    (dictInsert d k v).filter (fun e => e.fst == k) = [(k, v)] := by
  unfold dictInsert
  by_cases hany : d.any (fun e => e.fst = k)
  · rw [if_pos hany]
    exact filter_map_replace_key d k v hkeys hany
  · rw [if_neg hany]
    rw [List.filter_append]
    have hnone : ∀ e ∈ d, e.fst ≠ k := by
      intro e he hc
      simp only [List.any_eq_true] at hany
      exact hany ⟨e, he, by simp [hc]⟩
    rw [filter_key_eq_nil d k hnone]
    simp

/-- Folding command registrations whose full names all differ from `key`
leaves the lookup at `key` unchanged. -/
theorem listLookup_registerCommands_fresh (d : List (String × Handler))
    (pname : String) (cmds : List (String × Handler)) (key : String)
    (hfresh : ∀ c ∈ cmds, pname ++ ":" ++ c.fst ≠ key) :
    listLookup (registerCommands d pname cmds) key = listLookup d key := by
  induction cmds generalizing d with
  | nil => rfl
  | cons c0 rest ih =>
    have hstep : registerCommands d pname (c0 :: rest) =
        registerCommands (dictInsert d (pname ++ ":" ++ c0.fst) c0.snd) pname
          rest := rfl
    rw [hstep, ih _ (fun c hc => hfresh c (List.mem_cons_of_mem _ hc))]
    exact listLookup_dictInsert_ne d _ key c0.snd
      (fun hc => hfresh c0 (by simp) hc.symm)

/-- `"{p}:{a}" = "{p}:{b}"` forces `a = b`. -/
theorem fullName_inj (pname a b : String)
    (h : pname ++ ":" ++ a = pname ++ ":" ++ b) : a = b := by
  have hd := congrArg String.data h
  rw [String.data_append, String.data_append] at hd
  exact String.ext (List.append_cancel_left hd)

/-- After registering a plugin's commands, each command name of the map
(whose names are distinct) looks up to that plugin's handler. -/
theorem listLookup_registerCommands_self (d : List (String × Handler))
    (pname : String) (cmds : List (String × Handler)) (c : String)
    (hnd : Handler) (hnodup : (cmds.map Prod.fst).Nodup)
    (hfind : listLookup cmds c = some hnd) :
    listLookup (registerCommands d pname cmds) (pname ++ ":" ++ c) =
      some hnd := by
  induction cmds generalizing d with
  | nil => simp [listLookup] at hfind
  | cons c0 rest ih =>
    obtain ⟨c0n, c0h⟩ := c0
    simp only [List.map_cons] at hnodup
    have hhead : c0n ∉ rest.map Prod.fst := (List.nodup_cons.mp hnodup).1
    have htail : (rest.map Prod.fst).Nodup := (List.nodup_cons.mp hnodup).2
    have hstep : registerCommands d pname ((c0n, c0h) :: rest) =
        registerCommands (dictInsert d (pname ++ ":" ++ c0n) c0h) pname
          rest := rfl
    by_cases hc0 : c0n = c
    · have hh : c0h = hnd := by simpa [listLookup, hc0] using hfind
      subst hh
      rw [hstep]
      rw [listLookup_registerCommands_fresh _ pname rest (pname ++ ":" ++ c)
        ?fresh]
      · rw [← hc0]
        exact listLookup_dictInsert_self d _ _
      case fresh =>
        intro c2 hc2 heq
        have hf : c2.fst = c := fullName_inj pname c2.fst c heq
        apply hhead
        rw [hc0, ← hf]
        exact List.mem_map.mpr ⟨c2, hc2, rfl⟩
    · simp only [listLookup, hc0, if_false] at hfind
      rw [hstep]
      exact ih _ htail hfind

/-- C1 counterexample: registering a second plugin named `"p"` is not
rejected — afterwards `listPlugins()` shows the second plugin's descriptor
and the command table entry `"p:c"` invokes the second plugin's handler,
not the first's. -/
theorem duplicate_name_not_rejected :
    listPlugins (registerPlugin (registerPlugin pmEmpty pluginOne) pluginTwo) =
      [.dict [("name", .str "p"), ("version", .str "2.0.0"),
              ("description", .str "second")]] ∧
    pmExecuteCommand (registerPlugin (registerPlugin pmEmpty pluginOne)
        pluginTwo) "p:c" [] = .str "two" ∧
    pmExecuteCommand (registerPlugin pmEmpty pluginOne) "p:c" [] =
      .str "one" ∧
    PyValue.str "two" ≠ PyValue.str "one" := by
  refine ⟨rfl, rfl, rfl, ?_⟩
  simp

/-- C1 as amended: registering a plugin whose name equals an
already-registered plugin's name is accepted and silently overwrites — the
last registration wins.  Afterwards the registry holds exactly one plugin
under that name, namely the newly registered one, and every command of the
new plugin's map is bound in the table to the new plugin's handler. -/
theorem register_duplicate_name_last_wins (pm : PM) (p : PluginD)
    (cmds : List (String × Handler))
    (hkeys : (pm.plugins.map Prod.fst).Nodup)
    (hinit : p.initResult = .ok true)
    (hcmds : p.getCommands = .ok cmds)
    (hnodupCmds : (cmds.map Prod.fst).Nodup) :
    (registerPlugin pm p).plugins.filter (fun e => e.fst == p.name) =
      [(p.name, p)] ∧
    (∀ c hnd, listLookup cmds c = some hnd →
      listLookup (registerPlugin pm p).commands (p.name ++ ":" ++ c) =
        some hnd) := by
  have hreg : registerPlugin pm p =
      { plugins := dictInsert pm.plugins p.name p,
        commands := registerCommands pm.commands p.name cmds } := by
    simp [registerPlugin, hinit, hcmds]
  rw [hreg]
  constructor
  · exact dictInsert_filter_key pm.plugins p.name p hkeys
  · intro c hnd hfind
    exact listLookup_registerCommands_self pm.commands p.name cmds c hnd
      hnodupCmds hfind

/-- Witness for C1 as amended, at the two same-named plugins. -/
theorem register_duplicate_name_last_wins_witness :
    (registerPlugin (registerPlugin pmEmpty pluginOne)
        pluginTwo).plugins.filter (fun e => e.fst == "p") =
      [("p", pluginTwo)] ∧
    listLookup (registerPlugin (registerPlugin pmEmpty pluginOne)
        pluginTwo).commands ("p" ++ ":" ++ "c") = some (echoHandler "two") := by
  have h := register_duplicate_name_last_wins
    (registerPlugin pmEmpty pluginOne) pluginTwo [("c", echoHandler "two")]
    (by decide) rfl rfl (by decide)
  exact ⟨h.1, h.2 "c" (echoHandler "two") rfl⟩

/-! ## C2 — exactness of the command table -/

theorem registerCommands_keys (d : List (String × Handler)) (pname : String)
    (cmds : List (String × Handler))
    (hfresh : ∀ c ∈ cmds, (pname ++ ":" ++ c.fst) ∉ d.map Prod.fst)
    (hnodup : (cmds.map (fun c => pname ++ ":" ++ c.fst)).Nodup) :
    (registerCommands d pname cmds).map Prod.fst =
      d.map Prod.fst ++ cmds.map (fun c => pname ++ ":" ++ c.fst) := by
  induction cmds generalizing d with
  | nil => simp [registerCommands]
  | cons c0 rest ih =>
    simp only [List.map_cons] at hnodup
    have hhead : (pname ++ ":" ++ c0.fst) ∉
        rest.map (fun c => pname ++ ":" ++ c.fst) :=
      (List.nodup_cons.mp hnodup).1
    have htail := (List.nodup_cons.mp hnodup).2
    have hins := dictInsert_keys_of_not_mem d (pname ++ ":" ++ c0.fst) c0.snd
      (hfresh c0 (by simp))
    have hf : ∀ c ∈ rest, (pname ++ ":" ++ c.fst) ∉
        (dictInsert d (pname ++ ":" ++ c0.fst) c0.snd).map Prod.fst := by
      intro c hc hmem
      rw [hins] at hmem
      rcases List.mem_append.mp hmem with hmem1 | hmem2
      · exact hfresh c (List.mem_cons_of_mem _ hc) hmem1
      · have heq : pname ++ ":" ++ c.fst = pname ++ ":" ++ c0.fst := by
          simpa using hmem2
        apply hhead
        rw [← heq]
        exact List.mem_map.mpr ⟨c, hc, rfl⟩
    have hstep : registerCommands d pname (c0 :: rest) =
        registerCommands (dictInsert d (pname ++ ":" ++ c0.fst) c0.snd) pname
          rest := rfl
    rw [hstep, ih _ hf htail, hins]
    simp [List.append_assoc]

theorem registerPlugin_keys (pm : PM) (p : PluginD)
    (hfresh : ∀ k ∈ pluginContrib p, k ∉ pm.commands.map Prod.fst)
    (hnodup : (pluginContrib p).Nodup) :
    (registerPlugin pm p).commands.map Prod.fst =
      pm.commands.map Prod.fst ++ pluginContrib p := by
  cases hi : p.initResult with
  | error e => simp [registerPlugin, pluginContrib, hi]
  | ok b =>
    cases b with
    | false => simp [registerPlugin, pluginContrib, hi]
    | true =>
      cases hc : p.getCommands with
      | error e => simp [registerPlugin, pluginContrib, hi, hc]
      | ok cmds =>
        have hcontrib : pluginContrib p =
            cmds.map (fun c => p.name ++ ":" ++ c.fst) := by
          simp [pluginContrib, hi, hc]
        have hcomm : (registerPlugin pm p).commands =
            registerCommands pm.commands p.name cmds := by
          simp [registerPlugin, hi, hc]
        rw [hcomm, hcontrib]
        refine registerCommands_keys pm.commands p.name cmds ?_ ?_
        · intro c hcm
          exact hfresh _ (by rw [hcontrib]; exact List.mem_map.mpr ⟨c, hcm, rfl⟩)
        · rw [← hcontrib]
          exact hnodup

theorem registerAll_keys_go (ps : List PluginD) (pm : PM)
    (h : (pm.commands.map Prod.fst ++ ps.flatMap pluginContrib).Nodup) :
    (ps.foldl registerPlugin pm).commands.map Prod.fst =
      pm.commands.map Prod.fst ++ ps.flatMap pluginContrib := by
  induction ps generalizing pm with
  | nil => simp
  | cons p rest ih =>
    rw [List.flatMap_cons] at h
    have hdisj := (List.nodup_append.mp h).2.2
    have hCR := (List.nodup_append.mp h).2.1
    have hC : (pluginContrib p).Nodup := (List.nodup_append.mp hCR).1
    have hfresh : ∀ k ∈ pluginContrib p, k ∉ pm.commands.map Prod.fst := by
      intro k hk hmem
      exact hdisj hmem (List.mem_append.mpr (Or.inl hk))
    have hkeys := registerPlugin_keys pm p hfresh hC
    have hfold : (p :: rest).foldl registerPlugin pm =
        rest.foldl registerPlugin (registerPlugin pm p) := rfl
    have h' : ((registerPlugin pm p).commands.map Prod.fst ++
        rest.flatMap pluginContrib).Nodup := by
      rw [hkeys, List.append_assoc]
      exact h
    rw [hfold, ih _ h', hkeys, List.flatMap_cons, List.append_assoc]

/-- C2 counterexample: two successfully registered plugins that produce the
same full name `"p:c"` collapse to one table entry — the key list is the
singleton and the table size is 1, not the sum 2 of the plugins' command
counts, so the claim fails for this registration sequence. -/
theorem duplicate_full_name_drops_entry :
    listCommands (registerAll [pluginOne, pluginTwo]) = ["p:c"] ∧
    (registerAll [pluginOne, pluginTwo]).commands.length = 1 ∧
    ([pluginOne, pluginTwo].map
      (fun p => (pluginContrib p).length)).sum = 2 ∧
    (1 : Nat) ≠ 2 := by
  exact ⟨rfl, rfl, rfl, by decide⟩

/-- C2 as amended: provided the full names `"{p.name}:{c}"` contributed by
the successfully registered plugins are pairwise distinct (which duplicate
plugin names — the counterexample — violate), the command table's key list
is exactly those full names in registration order, and its size is the sum
of the plugins' command counts: nothing dropped, nothing duplicated. -/
theorem command_table_keys_exact (ps : List PluginD)
    (hnodup : (ps.flatMap pluginContrib).Nodup) :
    listCommands (registerAll ps) = ps.flatMap pluginContrib ∧
    (registerAll ps).commands.length =
      (ps.map (fun p => (pluginContrib p).length)).sum := by
  have hkeys := registerAll_keys_go ps pmEmpty (by simpa using hnodup)
  have h1 : listCommands (registerAll ps) = ps.flatMap pluginContrib := by
    simpa [listCommands, registerAll, pmEmpty] using hkeys
  refine ⟨h1, ?_⟩
  have h2 : (registerAll ps).commands.length =
      (listCommands (registerAll ps)).length := by
    simp [listCommands]
  rw [h2, h1, List.length_flatMap]
  rfl

/-- Witness for C2 as amended: two distinct-named plugins, one command
each. -/
theorem command_table_keys_exact_witness :
    listCommands (registerAll [pluginAlpha, pluginBeta]) =
      ["alpha:a", "beta:b"] ∧
    (registerAll [pluginAlpha, pluginBeta]).commands.length = 2 := by
  have h := command_table_keys_exact [pluginAlpha, pluginBeta] (by decide)
  exact ⟨h.1.trans (by rfl), h.2.trans (by rfl)⟩

end Assistant
